import Mathlib

/-!
# Verification of the Somnoviz AHI analysis engine

Shallow embedding of `src/scripts/ahi_analysis.py` (class `AHIAnalyzer`) and
`src/scripts/ahi_analysis_chunked.py` (class `ChunkedAHIAnalyzer`).

Modelling conventions:
* Python floats are modelled as `ℚ`; the algorithms are pure rational
  arithmetic at the inputs exercised here (floating-point rounding is not part
  of any claim).
* `int(x)` is truncation toward zero (`pyInt`), `//` is floor division
  (`Int.fdiv`), `round(x, n)` is round-half-to-even (`pyRound1`/`pyRound2`).
* `a / b` where Python would raise `ZeroDivisionError` is modelled by
  `pyDiv : ℚ → ℚ → Option ℚ` so the failure is observable.
* `np.median` of an empty slice is NaN in numpy (a warning, not an error);
  every use in the source immediately compares the result with `>=`, which is
  `False` for NaN.  It is therefore modelled as `median? : List ℚ → Option ℚ`
  with `none` for the empty list, and each comparison treats `none` as false.
* `scipy.ndimage.uniform_filter1d` (default `mode='reflect'`, `origin=0`) is
  the centred moving average with reflected boundary: the window for output
  `i` is indices `i - size/2 … i - size/2 + size - 1` mapped into range by
  reflection.
-/

/-- Python `int(q)`: truncation toward zero. -/
def pyInt (q : ℚ) : ℤ := if 0 ≤ q then ⌊q⌋ else -⌊-q⌋

/-- Python `a / b` on floats, which raises `ZeroDivisionError` for `b = 0`. -/
def pyDiv (a b : ℚ) : Option ℚ := if b = 0 then none else some (a / b)

/-- Round to the nearest integer, ties to even (Python `round` semantics on
exactly representable values). -/
def roundHalfEven (q : ℚ) : ℤ :=
  let f := ⌊q⌋
  let r := q - f
  if r < 1/2 then f
  else if 1/2 < r then f + 1
  else if f % 2 = 0 then f else f + 1

/-- Python `round(q, 1)`. -/
def pyRound1 (q : ℚ) : ℚ := (roundHalfEven (q * 10) : ℚ) / 10

/-- Python `round(q, 2)`. -/
def pyRound2 (q : ℚ) : ℚ := (roundHalfEven (q * 100) : ℚ) / 100

/-- Python slice `l[a:b]` for the non-negative indices the analyzers produce
(`a`, `b` are clamped to `[0, len]` by the callers before slicing). -/
def pySlice (l : List ℚ) (a b : ℤ) : List ℚ := (l.take b.toNat).drop a.toNat

/-- `np.median` / `np.percentile(·, 50)` (numpy's default linear interpolation
at the 50th percentile is exactly the median).  `none` models numpy's NaN
result on an empty array. -/
def median? (l : List ℚ) : Option ℚ :=
  if l = [] then none
  else
    let sorted := l.insertionSort (· ≤ ·)
    let n := l.length
    if n % 2 = 1 then some (sorted.getD (n / 2) 0)
    else some ((sorted.getD (n / 2 - 1) 0 + sorted.getD (n / 2) 0) / 2)

/-- `np.min` over a slice that is nonempty in every reachable configuration
(see `corroborate_min_slice_ne_nil`); the default is never read there. -/
def npMin (l : List ℚ) : ℚ := l.min?.getD 0

/-- Index into `l` with numpy's `'reflect'` boundary mode
(`d c b a | a b c d | d c b a`, periodic with period `2·len`). -/
def reflectGet (l : List ℚ) (j : ℤ) : ℚ :=
  if l.length = 0 then 0
  else if (j.emod (2 * l.length)).toNat < l.length then
    l.getD (j.emod (2 * l.length)).toNat 0
  else
    l.getD (2 * l.length - 1 - (j.emod (2 * l.length)).toNat) 0

/-- `scipy.ndimage.uniform_filter1d(l, size)`: centred moving average with
reflected boundaries; the window for output `i` starts at `i - size / 2`. -/
def uniformFilter1d (l : List ℚ) (size : ℕ) : List ℚ :=
  (List.range l.length).map fun i =>
    (((List.range size).map fun t => reflectGet l ((i : ℤ) + t - (size / 2 : ℕ))).sum) / size

/-!
## Run-length event extraction

Both detectors in both analyzers contain the verbatim loop

```python
for i, flag in enumerate(pred):
    if flag and not in_event:
        in_event = True; event_start = i
    elif not flag and in_event:
        in_event = False; event_end = i
        if duration >= self.min_event_duration: events.append(...)
if in_event:
    event_end = len(pred)
    if duration >= self.min_event_duration: events.append(...)
```

`runLoop` is that loop with the inline minimum-duration check abstracted as
`keep` and the inline record construction deferred to a `map`/`filterMap`
over the produced `(start_index, end_index)` pairs. -/
def runLoop (keep : ℕ → ℕ → Bool) : List Bool → ℕ → Bool → ℕ → List (ℕ × ℕ) → List (ℕ × ℕ)
  | [], i, inEv, st, acc =>
      if inEv then (if keep st i then acc ++ [(st, i)] else acc) else acc
  | b :: rest, i, inEv, st, acc =>
      if b then
        (if inEv then runLoop keep rest (i + 1) true st acc
         else runLoop keep rest (i + 1) true i acc)
      else
        (if inEv then runLoop keep rest (i + 1) false st (if keep st i then acc ++ [(st, i)] else acc)
         else runLoop keep rest (i + 1) false st acc)

/-- The run extraction as invoked by the detectors. -/
def extractRuns (pred : List Bool) (keep : ℕ → ℕ → Bool) : List (ℕ × ℕ) :=
  runLoop keep pred 0 false 0 []

/-- `(s, e)` is a maximal interval of `true` samples of `pred`. -/
def IsMaxRun (pred : List Bool) (s e : ℕ) : Prop :=
  s < e ∧ e ≤ pred.length ∧
    (∀ i ∈ Finset.Ico s e, pred.getD i false = true) ∧
    (s = 0 ∨ pred.getD (s - 1) false = false) ∧
    (e = pred.length ∨ pred.getD e false = false)

/-!
## Data model
-/

/-- An apnea or hypopnea event record, as built by the detectors.  The three
SpO2 fields are present only on hypopnea events (Python uses dicts with
different key sets). -/
structure Event where
  type : String
  start_sample : ℕ
  end_sample : ℕ
  start_time : ℚ
  end_time : ℚ
  duration : ℚ
  severity : String
  spo2_drop : Option ℚ := none
  baseline_spo2 : Option ℚ := none
  min_spo2 : Option ℚ := none
deriving DecidableEq

/-- The record returned by `calculate_ahi` / `_calculate_ahi`. -/
structure AhiResult where
  ahi_score : ℚ
  severity : String
  severity_color : String
  total_events : ℕ
  apnea_count : ℕ
  hypopnea_count : ℕ
  recording_duration_hours : ℚ
  total_event_duration_minutes : ℚ
  event_percentage : ℚ
  avg_apnea_duration : ℚ
  avg_hypopnea_duration : ℚ
  apnea_per_hour : ℚ
  hypopnea_per_hour : ℚ
deriving DecidableEq

/-- The record returned by `analyze` (the constant `analysis_parameters` echo
is omitted). -/
structure Results where
  ahi_analysis : AhiResult
  apnea_events : List Event
  hypopnea_events : List Event
  all_events : List Event
deriving DecidableEq

/-- The event list of an analysis run (`all_events`), empty when the run
raised. -/
def resultEvents : Option Results → List Event
  | none => []
  | some r => r.all_events

/-!
## Clinical constants (identical in both analyzer classes)
-/

def apnea_threshold : ℚ := 1/10
def hypopnea_min_threshold : ℚ := 3/10
def hypopnea_max_threshold : ℚ := 7/10
def spo2_drop_threshold : ℚ := 3
def min_event_duration : ℚ := 10

/-- Minimum-duration filter `(e - s) / flow_sr >= self.min_event_duration`. -/
def durationKeep (flowSr : ℚ) (s e : ℕ) : Bool :=
  decide (min_event_duration ≤ ((e : ℚ) - (s : ℚ)) / flowSr)

/-- Flow filter size: `max(1, int(sr * 2))`, reduced to `max(1, len // 4)`
when it reaches the array length. -/
def flowFilterSize (flowSr : ℚ) (n : ℕ) : ℕ :=
  let fs := (max 1 (pyInt (flowSr * 2))).toNat
  if n ≤ fs then max 1 (n / 4) else fs

/-- SpO2 filter size: `max(1, int(sr * 3))`, with the same fallback. -/
def spo2FilterSize (spo2Sr : ℚ) (n : ℕ) : ℕ :=
  let fs := (max 1 (pyInt (spo2Sr * 3))).toNat
  if n ≤ fs then max 1 (n / 4) else fs

/-- `uniform_filter1d(np.abs(flow_data), size=filter_size)`. -/
def smoothedAbsFlow (flowData : List ℚ) (flowSr : ℚ) : List ℚ :=
  uniformFilter1d (flowData.map (fun x => |x|)) (flowFilterSize flowSr flowData.length)

/-- `uniform_filter1d(spo2_data, size=spo2_filter_size)`. -/
def smoothedSpo2 (spo2Data : List ℚ) (spo2Sr : ℚ) : List ℚ :=
  uniformFilter1d spo2Data (spo2FilterSize spo2Sr spo2Data.length)

/-- The upper-half-median baseline formula, duplicated verbatim in
`AHIAnalyzer.calculate_baseline_flow` and
`ChunkedAHIAnalyzer._calculate_global_baseline`:
`p50` of `|flow|`, then the median of all values `≥ p50`.
Empty input (numpy NaN) is modelled by the unused default `0`. -/
def upperMedianBaseline (flowData : List ℚ) : ℚ :=
  let flowAbs := flowData.map (fun x => |x|)
  let p50 := (median? flowAbs).getD 0
  let candidates := flowAbs.filter (fun x => decide (p50 ≤ x))
  (median? candidates).getD 0

/-!
## SpO2 corroboration (hypopnea)

The candidate-to-event corroboration is duplicated verbatim in
`AHIAnalyzer.detect_hypopnea_events` and
`ChunkedAHIAnalyzer._detect_hypopnea_in_chunk`.  The chunked variant maps the
candidate's chunk-relative time (`event['start_time'] - chunk_start_time`,
which is `start_index / flow_sr`) into SpO2 indices; the single-pass variant
uses the absolute time, which equals the same expression because its offset
is zero.  `offset` below is used only for the absolute event-time fields.
-/

/-- `max(0, int(start_time_local * spo2_sr))`. -/
def spo2StartIdx (flowSr spo2Sr : ℚ) (s : ℕ) : ℤ :=
  max 0 (pyInt (((s : ℚ) / flowSr) * spo2Sr))

/-- `min(len(spo2_smooth), int(end_time_local * spo2_sr))`. -/
def spo2EndIdx (spo2Len : ℕ) (flowSr spo2Sr : ℚ) (e : ℕ) : ℤ :=
  min (spo2Len : ℤ) (pyInt (((e : ℚ) / flowSr) * spo2Sr))

/-- The 30 s pre-event window `spo2_smooth[pre_event_start:spo2_start]`. -/
def preWindow (spo2Smooth : List ℚ) (flowSr spo2Sr : ℚ) (s : ℕ) : List ℚ :=
  let spo2Start := spo2StartIdx flowSr spo2Sr s
  pySlice spo2Smooth (max 0 (spo2Start - pyInt (30 * spo2Sr))) spo2Start

/-- One candidate of the hypopnea SpO2-drop check: skipped (`none`) when the
mapped index range is empty/inverted or when the pre-event median is NaN;
otherwise promoted iff `spo2_drop >= spo2_drop_threshold`. -/
def corroborate (spo2Smooth : List ℚ) (flowSr spo2Sr offset : ℚ) (c : ℕ × ℕ) : Option Event :=
  let s := c.1
  let e := c.2
  let spo2Start := spo2StartIdx flowSr spo2Sr s
  let spo2End := spo2EndIdx spo2Smooth.length flowSr spo2Sr e
  if spo2End ≤ spo2Start then none
  else
    match median? (preWindow spo2Smooth flowSr spo2Sr s) with
    | none => none
    | some baselineSpo2 =>
        let postEventEnd := min (spo2Smooth.length : ℤ) (spo2End + pyInt (30 * spo2Sr))
        let minSpo2 := npMin (pySlice spo2Smooth spo2Start postEventEnd)
        let spo2Drop := baselineSpo2 - minSpo2
        if spo2_drop_threshold ≤ spo2Drop then
          some { type := "hypopnea", start_sample := s, end_sample := e,
                 start_time := offset + (s : ℚ) / flowSr,
                 end_time := offset + (e : ℚ) / flowSr,
                 duration := ((e : ℚ) - (s : ℚ)) / flowSr,
                 severity := if 6 < spo2Drop then "severe" else "moderate",
                 spo2_drop := some spo2Drop,
                 baseline_spo2 := some baselineSpo2,
                 min_spo2 := some minSpo2 }
        else none

namespace AHIAnalyzer

/-- `AHIAnalyzer.calculate_baseline_flow`: the provided global baseline, or
the upper-half-median of the whole recording. -/
def calculate_baseline_flow (flowData : List ℚ) (globalBaseline : Option ℚ) : ℚ :=
  match globalBaseline with
  | some b => b
  | none => upperMedianBaseline flowData

/-- `AHIAnalyzer.detect_apnea_events`. -/
def detect_apnea_events (flowData : List ℚ) (flowSr : ℚ) (globalBaseline : Option ℚ) :
    List Event :=
  let baseline := calculate_baseline_flow flowData globalBaseline
  let threshold := baseline * apnea_threshold
  let flowSmooth := smoothedAbsFlow flowData flowSr
  let belowThreshold := flowSmooth.map (fun v => decide (v < threshold))
  (extractRuns belowThreshold (durationKeep flowSr)).map fun c =>
    { type := "apnea", start_sample := c.1, end_sample := c.2,
      start_time := (c.1 : ℚ) / flowSr,
      end_time := (c.2 : ℚ) / flowSr,
      duration := ((c.2 : ℚ) - (c.1 : ℚ)) / flowSr,
      severity := if 30 < ((c.2 : ℚ) - (c.1 : ℚ)) / flowSr then "severe" else "moderate" }

/-- `AHIAnalyzer.detect_hypopnea_events` (the event-time offset of the
corroboration is 0 for the single-pass analyzer). -/
def detect_hypopnea_events (flowData spo2Data : List ℚ) (flowSr spo2Sr : ℚ)
    (globalBaseline : Option ℚ) : List Event :=
  let baseline := calculate_baseline_flow flowData globalBaseline
  let minThreshold := baseline * hypopnea_min_threshold
  let maxThreshold := baseline * hypopnea_max_threshold
  let flowSmooth := smoothedAbsFlow flowData flowSr
  let spo2Smooth := smoothedSpo2 spo2Data spo2Sr
  let flowReduced := flowSmooth.map (fun v => decide (minThreshold ≤ v ∧ v ≤ maxThreshold))
  (extractRuns flowReduced (durationKeep flowSr)).filterMap
    (corroborate spo2Smooth flowSr spo2Sr 0)

/-- `AHIAnalyzer.calculate_ahi`.  The three divisions in the summary
statistics are unguarded in the source and raise `ZeroDivisionError` when
`recording_duration_hours == 0`; only the headline score has the `> 0`
guard. -/
def calculate_ahi (apneaEvents hypopneaEvents : List Event)
    (recordingDurationHours : ℚ) : Option AhiResult :=
  let totalEvents := apneaEvents.length + hypopneaEvents.length
  let ahiScore : ℚ :=
    if 0 < recordingDurationHours then (totalEvents : ℚ) / recordingDurationHours else 0
  let severity :=
    if ahiScore < 5 then "Normal"
    else if ahiScore < 15 then "Mild"
    else if ahiScore < 30 then "Moderate"
    else "Severe"
  let severityColor :=
    if ahiScore < 5 then "green"
    else if ahiScore < 15 then "yellow"
    else if ahiScore < 30 then "orange"
    else "red"
  let totalApneaDuration := (apneaEvents.map Event.duration).sum
  let totalHypopneaDuration := (hypopneaEvents.map Event.duration).sum
  let totalEventDuration := totalApneaDuration + totalHypopneaDuration
  let avgApneaDuration :=
    if apneaEvents = [] then 0 else totalApneaDuration / (apneaEvents.length : ℚ)
  let avgHypopneaDuration :=
    if hypopneaEvents = [] then 0 else totalHypopneaDuration / (hypopneaEvents.length : ℚ)
  match pyDiv totalEventDuration (recordingDurationHours * 3600),
        pyDiv (apneaEvents.length : ℚ) recordingDurationHours,
        pyDiv (hypopneaEvents.length : ℚ) recordingDurationHours with
  | some eventPercentage, some apneaPerHour, some hypopneaPerHour =>
      some { ahi_score := pyRound1 ahiScore,
             severity := severity,
             severity_color := severityColor,
             total_events := totalEvents,
             apnea_count := apneaEvents.length,
             hypopnea_count := hypopneaEvents.length,
             recording_duration_hours := pyRound2 recordingDurationHours,
             total_event_duration_minutes := pyRound1 (totalEventDuration / 60),
             event_percentage := pyRound1 (eventPercentage * 100),
             avg_apnea_duration := pyRound1 avgApneaDuration,
             avg_hypopnea_duration := pyRound1 avgHypopneaDuration,
             apnea_per_hour := pyRound1 apneaPerHour,
             hypopnea_per_hour := pyRound1 hypopneaPerHour }
  | _, _, _ => none

/-- `AHIAnalyzer.analyze`. -/
def analyze (flowData spo2Data : List ℚ) (flowSr spo2Sr : ℚ) (globalBaseline : Option ℚ) :
    Option Results :=
  let recordingDurationHours :=
    min ((flowData.length : ℚ) / (flowSr * 3600)) ((spo2Data.length : ℚ) / (spo2Sr * 3600))
  let apneaEvents := detect_apnea_events flowData flowSr globalBaseline
  let hypopneaEvents := detect_hypopnea_events flowData spo2Data flowSr spo2Sr globalBaseline
  (calculate_ahi apneaEvents hypopneaEvents recordingDurationHours).map fun ahi =>
    { ahi_analysis := ahi,
      apnea_events := apneaEvents,
      hypopnea_events := hypopneaEvents,
      all_events := (apneaEvents ++ hypopneaEvents).insertionSort
        (fun a b => a.start_time ≤ b.start_time) }

end AHIAnalyzer

namespace ChunkedAHIAnalyzer

/-- `self.flow_chunk_size = int(chunk_duration_minutes * 60 * flow_sr)`. -/
def flow_chunk_size (chunkDurationMinutes : ℤ) (flowSr : ℚ) : ℤ :=
  pyInt ((chunkDurationMinutes : ℚ) * 60 * flowSr)

/-- `self.flow_overlap_size = int(overlap_minutes * 60 * flow_sr)`. -/
def flow_overlap_size (overlapMinutes : ℤ) (flowSr : ℚ) : ℤ :=
  pyInt ((overlapMinutes : ℚ) * 60 * flowSr)

/-- `ChunkedAHIAnalyzer._calculate_num_chunks`: Python `//` is floor
division (`Int.fdiv`). -/
def calculate_num_chunks (flowSamples : ℕ) (chunkSize overlapSize : ℤ) : ℤ :=
  let effectiveChunkSize := chunkSize - overlapSize
  if effectiveChunkSize ≤ 0 then 1
  else max 1 (Int.fdiv ((flowSamples : ℤ) - chunkSize) effectiveChunkSize + 1)

/-- Chunk flow start index: `0` for chunk 0, else
`chunk_idx * (chunk_size - overlap_size)`. -/
def chunk_flow_start (chunkIdx : ℕ) (chunkSize overlapSize : ℤ) : ℤ :=
  if chunkIdx = 0 then 0 else (chunkIdx : ℤ) * (chunkSize - overlapSize)

/-- Chunk flow end index: `min(flow_start + chunk_size, len(flow_data))`. -/
def chunk_flow_end (flowSamples : ℕ) (chunkIdx : ℕ) (chunkSize overlapSize : ℤ) : ℤ :=
  min (chunk_flow_start chunkIdx chunkSize overlapSize + chunkSize) (flowSamples : ℤ)

/-- The data `_get_chunk_data` extracts for one chunk. -/
structure ChunkData where
  flowChunk : List ℚ
  spo2Chunk : List ℚ
  chunkStartTime : ℚ
  chunkEndTime : ℚ

/-- `ChunkedAHIAnalyzer._get_chunk_data`. -/
def get_chunk_data (flowData spo2Data : List ℚ) (flowSr spo2Sr : ℚ)
    (chunkSize overlapSize : ℤ) (chunkIdx : ℕ) : ChunkData :=
  let flowStart := chunk_flow_start chunkIdx chunkSize overlapSize
  let flowEnd := chunk_flow_end flowData.length chunkIdx chunkSize overlapSize
  let chunkStartTime := (flowStart : ℚ) / flowSr
  let chunkEndTime := (flowEnd : ℚ) / flowSr
  let spo2Start := max 0 (pyInt (chunkStartTime * spo2Sr))
  let spo2End := min (spo2Data.length : ℤ) (pyInt (chunkEndTime * spo2Sr))
  { flowChunk := pySlice flowData flowStart flowEnd,
    spo2Chunk := pySlice spo2Data spo2Start spo2End,
    chunkStartTime := chunkStartTime,
    chunkEndTime := chunkEndTime }

/-- `ChunkedAHIAnalyzer._calculate_global_baseline` (verbatim copy of the
single-pass baseline formula). -/
def calculate_global_baseline (flowData : List ℚ) : ℚ := upperMedianBaseline flowData

/-- `ChunkedAHIAnalyzer._detect_apnea_in_chunk`. -/
def detect_apnea_in_chunk (flowChunk : List ℚ) (chunkStartTime : ℚ) (flowSr : ℚ)
    (globalBaseline : ℚ) : List Event :=
  let threshold := globalBaseline * apnea_threshold
  let flowSmooth := smoothedAbsFlow flowChunk flowSr
  let belowThreshold := flowSmooth.map (fun v => decide (v < threshold))
  (extractRuns belowThreshold (durationKeep flowSr)).map fun c =>
    { type := "apnea", start_sample := c.1, end_sample := c.2,
      start_time := chunkStartTime + (c.1 : ℚ) / flowSr,
      end_time := chunkStartTime + (c.2 : ℚ) / flowSr,
      duration := ((c.2 : ℚ) - (c.1 : ℚ)) / flowSr,
      severity := if 30 < ((c.2 : ℚ) - (c.1 : ℚ)) / flowSr then "severe" else "moderate" }

/-- `ChunkedAHIAnalyzer._detect_hypopnea_in_chunk`. -/
def detect_hypopnea_in_chunk (flowChunk spo2Chunk : List ℚ)
    (chunkStartTime _chunkEndTime : ℚ) (flowSr spo2Sr : ℚ) (globalBaseline : ℚ) :
    List Event :=
  if spo2Chunk = [] then []
  else
    let minThreshold := globalBaseline * hypopnea_min_threshold
    let maxThreshold := globalBaseline * hypopnea_max_threshold
    let flowSmooth := smoothedAbsFlow flowChunk flowSr
    let spo2Smooth := smoothedSpo2 spo2Chunk spo2Sr
    let flowReduced := flowSmooth.map (fun v => decide (minThreshold ≤ v ∧ v ≤ maxThreshold))
    (extractRuns flowReduced (durationKeep flowSr)).filterMap
      (corroborate spo2Smooth flowSr spo2Sr chunkStartTime)

/-- `if 0 < max_duration` fraction of `_remove_duplicate_events`, computed
for `(event, existing_event)`. -/
def overlap_fraction (event existing : Event) : ℚ :=
  let overlapStart := max event.start_time existing.start_time
  let overlapEnd := min event.end_time existing.end_time
  let overlapDuration := max 0 (overlapEnd - overlapStart)
  let eventDuration := event.end_time - event.start_time
  let existingDuration := existing.end_time - existing.start_time
  let maxDuration := max eventDuration existingDuration
  if 0 < maxDuration then overlapDuration / maxDuration else 0

/-- The inner loop of `_remove_duplicate_events`: first accepted event that
overlaps the new one by more than 50%. -/
def find_duplicate (event : Event) : List Event → Option Event
  | [] => none
  | existing :: rest =>
      if 1/2 < overlap_fraction event existing then some existing
      else find_duplicate event rest

/-- One iteration of the outer loop of `_remove_duplicate_events`
(`list.remove` removes the first occurrence, `List.erase`). -/
def dedup_step (uniqueEvents : List Event) (event : Event) : List Event :=
  match find_duplicate event uniqueEvents with
  | none => uniqueEvents ++ [event]
  | some existing =>
      if existing.end_time - existing.start_time < event.end_time - event.start_time then
        (uniqueEvents.erase existing) ++ [event]
      else uniqueEvents

/-- `ChunkedAHIAnalyzer._remove_duplicate_events` (Python's `sorted` is a
stable sort by `start_time`, as is `List.insertionSort`). -/
def remove_duplicate_events (allEvents : List Event) : List Event :=
  if allEvents = [] then []
  else ((allEvents.insertionSort (fun a b => a.start_time ≤ b.start_time)).foldl dedup_step [])

/-- `ChunkedAHIAnalyzer._calculate_ahi` is a verbatim copy of
`AHIAnalyzer.calculate_ahi` reading `self.recording_duration_hours`. -/
def calculate_ahi (apneaEvents hypopneaEvents : List Event)
    (recordingDurationHours : ℚ) : Option AhiResult :=
  AHIAnalyzer.calculate_ahi apneaEvents hypopneaEvents recordingDurationHours

/-- `ChunkedAHIAnalyzer.analyze`. -/
def analyze (flowData spo2Data : List ℚ) (flowSr spo2Sr : ℚ)
    (chunkDurationMinutes overlapMinutes : ℤ) : Option Results :=
  let chunkSize := flow_chunk_size chunkDurationMinutes flowSr
  let overlapSize := flow_overlap_size overlapMinutes flowSr
  let numChunks := calculate_num_chunks flowData.length chunkSize overlapSize
  let globalBaseline := calculate_global_baseline flowData
  let allApneaEvents := (List.range numChunks.toNat).flatMap fun chunkIdx =>
    let cd := get_chunk_data flowData spo2Data flowSr spo2Sr chunkSize overlapSize chunkIdx
    detect_apnea_in_chunk cd.flowChunk cd.chunkStartTime flowSr globalBaseline
  let allHypopneaEvents := (List.range numChunks.toNat).flatMap fun chunkIdx =>
    let cd := get_chunk_data flowData spo2Data flowSr spo2Sr chunkSize overlapSize chunkIdx
    detect_hypopnea_in_chunk cd.flowChunk cd.spo2Chunk cd.chunkStartTime cd.chunkEndTime
      flowSr spo2Sr globalBaseline
  let apneaEvents := remove_duplicate_events allApneaEvents
  let hypopneaEvents := remove_duplicate_events allHypopneaEvents
  let recordingDurationHours :=
    min ((flowData.length : ℚ) / (flowSr * 3600)) ((spo2Data.length : ℚ) / (spo2Sr * 3600))
  (calculate_ahi apneaEvents hypopneaEvents recordingDurationHours).map fun ahi =>
    { ahi_analysis := ahi,
      apnea_events := apneaEvents,
      hypopnea_events := hypopneaEvents,
      all_events := (apneaEvents ++ hypopneaEvents).insertionSort
        (fun a b => a.start_time ≤ b.start_time) }

end ChunkedAHIAnalyzer

instance (pred : List Bool) (s e : ℕ) : Decidable (IsMaxRun pred s e) := by
  unfold IsMaxRun; infer_instance

/-!
## Concrete fixtures used by witnesses and counterexamples
-/

/-- A bare event with the fields the deduplicator and aggregator read. -/
def sampleEvent (t0 t1 : ℚ) : Event :=
  { type := "apnea", start_sample := 0, end_sample := 0, start_time := t0, end_time := t1,
    duration := t1 - t0, severity := "moderate" }

/-- 24 s flow recording at 0.5 Hz: 12 s of normal flow, then 12 s of zero
flow (one apnea). -/
def wFlow : List ℚ := [1, 1, 1, 1, 1, 1, 0, 0, 0, 0, 0, 0]

def wSpo2 : List ℚ := [95, 95, 95]

/-- The apnea event the analyzers detect in `wFlow` at 0.5 Hz. -/
def wEvent : Event :=
  { type := "apnea", start_sample := 6, end_sample := 12, start_time := 12, end_time := 24,
    duration := 12, severity := "moderate" }

/-- 24 s flow recording at 0.5 Hz with a 12 s reduction to half amplitude
(baseline 1). -/
def eqFlow : List ℚ := [1, 1, 1, 1, 1/2, 1/2, 1/2, 1/2, 1/2, 1/2, 1, 1]

/-- 36 s of SpO2 at 1/3 Hz, desaturating at 27 s (beyond the 24 s flow
span). -/
def ceSpo2 : List ℚ := [95, 95, 95, 95, 95, 95, 95, 95, 95, 90, 95, 95]

/-- 24 s of SpO2 at 1/3 Hz, fully covered by the single chunk. -/
def wSpo2Covered : List ℚ := [95, 95, 95, 95, 95, 95, 95, 90]

/-- Flow with a 12 s half-amplitude (50% reduction) interval, baseline 1. -/
def hypFlow : List ℚ := [1, 1, 1/2, 1/2, 1/2, 1/2, 1/2, 1/2, 1, 1]

/-- Flow with a 12 s interval at 20% of baseline (80% reduction), baseline 1. -/
def hypFlowDeep : List ℚ := [1, 1, 1/5, 1/5, 1/5, 1/5, 1/5, 1/5, 1, 1]

/-- SpO2 at 1/3 Hz with a 5-point desaturation during/after the reduction. -/
def hypSpo2 : List ℚ := [95, 95, 95, 90, 95, 95]

/-- A 20 s all-zero flow recording (degenerate baseline 0). -/
def zeroFlow : List ℚ := List.replicate 20 0

def constSpo2 : List ℚ := List.replicate 20 95

/-- The event invariant of claim C1: minimum duration, consistent duration
field, positive extent. -/
def EventInv (ev : Event) : Prop :=
  min_event_duration ≤ ev.duration ∧ ev.duration = ev.end_time - ev.start_time ∧
    ev.start_time < ev.end_time

/-!
## Properties of the run-length extraction loop
-/

/-- The loop only appends: everything in the accumulator is in the result. -/
theorem runLoop_acc_mem (keep : ℕ → ℕ → Bool) (rest : List Bool) :
    ∀ (i : ℕ) (inEv : Bool) (st : ℕ) (acc : List (ℕ × ℕ)) (x : ℕ × ℕ),
      x ∈ acc → x ∈ runLoop keep rest i inEv st acc := by
  induction rest with
  | nil =>
      intro i inEv st acc x hx
      simp only [runLoop]
      split
      · split
        · exact List.mem_append_left _ hx
        · exact hx
      · exact hx
  | cons b rest ih =>
      intro i inEv st acc x hx
      simp only [runLoop]
      split
      · split
        · exact ih _ _ _ _ _ hx
        · exact ih _ _ _ _ _ hx
      · split
        · refine ih _ _ _ _ _ ?_
          split
          · exact List.mem_append_left _ hx
          · exact hx
        · exact ih _ _ _ _ _ hx

/-- Every emitted run passed the `keep` filter. -/
theorem runLoop_keep (keep : ℕ → ℕ → Bool) (rest : List Bool) :
    ∀ (i : ℕ) (inEv : Bool) (st : ℕ) (acc : List (ℕ × ℕ)),
      (∀ x ∈ acc, keep x.1 x.2 = true) →
      ∀ x ∈ runLoop keep rest i inEv st acc, keep x.1 x.2 = true := by
  induction rest with
  | nil =>
      intro i inEv st acc hacc x hx
      simp only [runLoop] at hx
      split at hx
      · split at hx
        · rcases List.mem_append.mp hx with h | h
          · exact hacc x h
          · rcases List.mem_singleton.mp h with rfl
            assumption
        · exact hacc x hx
      · exact hacc x hx
  | cons b rest ih =>
      intro i inEv st acc hacc x hx
      simp only [runLoop] at hx
      split at hx
      · split at hx
        · exact ih _ _ _ _ hacc x hx
        · exact ih _ _ _ _ hacc x hx
      · split at hx
        · refine ih _ _ _ _ ?_ x hx
          intro y hy
          split at hy
          · rcases List.mem_append.mp hy with h | h
            · exact hacc y h
            · rcases List.mem_singleton.mp h with rfl
              assumption
          · exact hacc y hy
        · exact ih _ _ _ _ hacc x hx

/-- Every emitted run has `start < end`. -/
theorem runLoop_lt (keep : ℕ → ℕ → Bool) (rest : List Bool) :
    ∀ (i : ℕ) (inEv : Bool) (st : ℕ) (acc : List (ℕ × ℕ)),
      (∀ x ∈ acc, x.1 < x.2) → (inEv = true → st < i) →
      ∀ x ∈ runLoop keep rest i inEv st acc, x.1 < x.2 := by
  induction rest with
  | nil =>
      intro i inEv st acc hacc hst x hx
      simp only [runLoop] at hx
      split at hx
      · rename_i hin
        split at hx
        · rcases List.mem_append.mp hx with h | h
          · exact hacc x h
          · rcases List.mem_singleton.mp h with rfl
            exact hst hin
        · exact hacc x hx
      · exact hacc x hx
  | cons b rest ih =>
      intro i inEv st acc hacc hst x hx
      simp only [runLoop] at hx
      split at hx
      · split at hx
        · rename_i hin
          exact ih _ _ _ _ hacc (fun _ => Nat.lt_succ_of_lt (hst hin)) x hx
        · exact ih _ _ _ _ hacc (fun _ => Nat.lt_succ_self i) x hx
      · split at hx
        · rename_i hin
          refine ih _ _ _ _ ?_ (by simp) x hx
          intro y hy
          split at hy
          · rcases List.mem_append.mp hy with h | h
            · exact hacc y h
            · rcases List.mem_singleton.mp h with rfl
              exact hst hin
          · exact hacc y hy
        · exact ih _ _ _ _ hacc (by simp) x hx

/-- Emitted runs are pairwise disjoint and ordered: each run ends no later
than the next one starts. -/
theorem runLoop_pairwise (keep : ℕ → ℕ → Bool) (rest : List Bool) :
    ∀ (i : ℕ) (inEv : Bool) (st : ℕ) (acc : List (ℕ × ℕ)),
      acc.Pairwise (fun a b => a.2 ≤ b.1) →
      (∀ x ∈ acc, x.2 ≤ (if inEv = true then st else i)) →
      (inEv = true → st ≤ i) →
      (runLoop keep rest i inEv st acc).Pairwise (fun a b => a.2 ≤ b.1) := by
  induction rest with
  | nil =>
      intro i inEv st acc hpw hend _
      simp only [runLoop]
      split
      · rename_i hin
        split
        · refine List.pairwise_append.mpr ⟨hpw, List.pairwise_singleton _ _, ?_⟩
          intro a ha b hb
          rcases List.mem_singleton.mp hb with rfl
          have := hend a ha
          simpa [hin] using this
        · exact hpw
      · exact hpw
  | cons b rest ih =>
      intro i inEv st acc hpw hend hsti
      simp only [runLoop]
      split
      · split
        · rename_i hin
          refine ih _ _ _ _ hpw ?_ (fun _ => Nat.le_succ_of_le (hsti hin))
          intro x hx
          simpa [hin] using hend x hx
        · rename_i hin
          refine ih _ _ _ _ hpw ?_ (fun _ => Nat.le_succ _)
          intro x hx
          have := hend x hx
          simp only [if_neg hin] at this ⊢
          simpa using this
      · split
        · rename_i hin
          refine ih _ _ _ _ ?_ ?_ (by simp)
          · split
            · refine List.pairwise_append.mpr ⟨hpw, List.pairwise_singleton _ _, ?_⟩
              intro a ha b hb
              rcases List.mem_singleton.mp hb with rfl
              simpa [hin] using hend a ha
            · exact hpw
          · intro x hx
            simp only [if_neg (by simp : ¬ (false = true))]
            split at hx
            · rcases List.mem_append.mp hx with h | h
              · have := hend x h
                simp only [hin, if_pos rfl] at this
                exact Nat.le_succ_of_le (le_trans this (hsti hin))
              · rcases List.mem_singleton.mp h with rfl
                exact Nat.le_succ i
            · have := hend x hx
              simp only [hin, if_pos rfl] at this
              exact Nat.le_succ_of_le (le_trans this (hsti hin))
        · rename_i hin
          refine ih _ _ _ _ hpw ?_ (by simp)
          intro x hx
          have := hend x hx
          simp only [if_neg hin] at this
          simp only [if_neg (by simp : ¬ (false = true))]
          exact Nat.le_succ_of_le this

/-- If the predicate never fires, no run is emitted. -/
theorem runLoop_all_false (keep : ℕ → ℕ → Bool) (rest : List Bool) :
    ∀ (i : ℕ) (st : ℕ) (acc : List (ℕ × ℕ)),
      (∀ b ∈ rest, b = false) →
      runLoop keep rest i false st acc = acc := by
  induction rest with
  | nil => intro i st acc _; simp [runLoop]
  | cons b rest ih =>
      intro i st acc hall
      have hb : b = false := hall b (List.mem_cons_self b rest)
      subst hb
      simp only [runLoop]
      rw [if_neg (by simp)]
      rw [if_neg (by simp)]
      exact ih _ _ _ (fun x hx => hall x (List.mem_cons_of_mem _ hx))

/-- Two maximal runs with the same start have the same end. -/
theorem IsMaxRun.end_le {pred : List Bool} {s e1 e2 : ℕ}
    (h1 : IsMaxRun pred s e1) (h2 : IsMaxRun pred s e2) : e1 ≤ e2 := by
  by_contra hlt
  push_neg at hlt
  obtain ⟨hs1, hlen1, hint1, _, _⟩ := h1
  obtain ⟨hs2, _, _, _, hr2⟩ := h2
  have hp : pred.getD e2 false = true :=
    hint1 e2 (Finset.mem_Ico.mpr ⟨le_of_lt hs2, hlt⟩)
  rcases hr2 with h | h
  · omega
  · rw [h] at hp
    exact Bool.noConfusion hp

theorem IsMaxRun.end_unique {pred : List Bool} {s e1 e2 : ℕ}
    (h1 : IsMaxRun pred s e1) (h2 : IsMaxRun pred s e2) : e1 = e2 :=
  le_antisymm (h1.end_le h2) (h2.end_le h1)

/-- Main completeness lemma for the extraction loop: a maximal run passing
the duration filter is emitted.  The invariants describe the loop state after
processing indices `[0, i)` of `pred`. -/
theorem runLoop_mem_of_maxRun (pred : List Bool) (keep : ℕ → ℕ → Bool) (s e : ℕ)
    (hmax : IsMaxRun pred s e) (hkeep : keep s e = true) :
    ∀ (rest : List Bool) (i : ℕ) (inEv : Bool) (st : ℕ) (acc : List (ℕ × ℕ)),
      pred.drop i = rest → i ≤ pred.length →
      (inEv = true → st < i ∧ (∀ j ∈ Finset.Ico st i, pred.getD j false = true) ∧
        (st = 0 ∨ pred.getD (st - 1) false = false)) →
      (inEv = false → i = 0 ∨ pred.getD (i - 1) false = false) →
      ((inEv = true ∧ s = st) ∨ i ≤ s) →
      (s, e) ∈ runLoop keep rest i inEv st acc := by
  intro rest
  induction rest with
  | nil =>
      intro i inEv st acc hdrop hil hA hB hcond
      have hil2 : pred.length ≤ i := List.drop_eq_nil_iff.mp hdrop
      have hieq : i = pred.length := le_antisymm hil hil2
      cases inEv with
      | false =>
          rcases hcond with ⟨h, _⟩ | hback
          · exact Bool.noConfusion h
          · exact absurd (lt_of_lt_of_le hmax.1 hmax.2.1) (by omega)
      | true =>
          rcases hcond with ⟨_, rfl⟩ | hback
          · obtain ⟨hsti, hint, hleft⟩ := hA rfl
            have hmax2 : IsMaxRun pred s i := ⟨hsti, hieq.le, hint, hleft, Or.inl hieq⟩
            have he : e = i := hmax.end_unique hmax2
            subst he
            have hred : runLoop keep [] e true s acc =
                if keep s e then acc ++ [(s, e)] else acc := rfl
            rw [hred, if_pos hkeep]
            exact List.mem_append_right _ (List.mem_singleton.mpr rfl)
          · exact absurd (lt_of_lt_of_le hmax.1 hmax.2.1) (by omega)
  | cons b rest ih =>
      intro i inEv st acc hdrop hil hA hB hcond
      have hi : i < pred.length := by
        by_contra hge
        rw [List.drop_eq_nil_iff.mpr (by omega)] at hdrop
        exact List.noConfusion hdrop
      have hcons := List.drop_eq_getElem_cons (l := pred) hi
      rw [hdrop] at hcons
      injection hcons with hbi hdrop2
      have hgd : pred.getD i false = b := by
        rw [List.getD_eq_getElem?_getD, List.getElem?_eq_getElem hi, Option.getD_some, hbi]
      have hsne : pred.getD s false = true := by
        rcases hmax with ⟨hse, hel, hint, _, _⟩
        exact hint s (Finset.mem_Ico.mpr ⟨le_refl s, hse⟩)
      cases b with
      | true =>
          cases inEv with
          | true =>
              have hred : runLoop keep (true :: rest) i true st acc =
                  runLoop keep rest (i + 1) true st acc := rfl
              rw [hred]
              obtain ⟨hsti, hint, hleft⟩ := hA rfl
              refine ih (i + 1) true st acc hdrop2.symm hi ?_ (by simp) ?_
              · intro _
                refine ⟨Nat.lt_succ_of_lt hsti, ?_, hleft⟩
                intro j hj
                rcases Finset.mem_Ico.mp hj with ⟨hj1, hj2⟩
                rcases Nat.lt_succ_iff_lt_or_eq.mp hj2 with h | rfl
                · exact hint j (Finset.mem_Ico.mpr ⟨hj1, h⟩)
                · exact hgd
              · rcases hcond with ⟨_, rfl⟩ | hback
                · exact Or.inl ⟨rfl, rfl⟩
                · right
                  rcases Nat.eq_or_lt_of_le hback with heq | h
                  · exfalso
                    have hpi : pred.getD (i - 1) false = true :=
                      hint (i - 1) (Finset.mem_Ico.mpr ⟨by omega, by omega⟩)
                    rcases hmax.2.2.2.1 with h0 | hf
                    · omega
                    · rw [← heq] at hf
                      rw [hf] at hpi
                      exact Bool.noConfusion hpi
                  · exact h
          | false =>
              have hred : runLoop keep (true :: rest) i false st acc =
                  runLoop keep rest (i + 1) true i acc := rfl
              rw [hred]
              have hback : i ≤ s := by
                rcases hcond with ⟨h, _⟩ | h
                · exact Bool.noConfusion h
                · exact h
              refine ih (i + 1) true i acc hdrop2.symm hi ?_ (by simp) ?_
              · intro _
                refine ⟨Nat.lt_succ_self i, ?_, ?_⟩
                · intro j hj
                  rcases Finset.mem_Ico.mp hj with ⟨hj1, hj2⟩
                  have hje : j = i := by omega
                  subst hje
                  exact hgd
                · rcases hB rfl with h0 | hf
                  · exact Or.inl h0
                  · exact Or.inr hf
              · rcases Nat.eq_or_lt_of_le hback with rfl | h
                · exact Or.inl ⟨rfl, rfl⟩
                · exact Or.inr h
      | false =>
          have hsnei : s ≠ i := by
            intro heq
            rw [heq, hgd] at hsne
            exact Bool.noConfusion hsne
          cases inEv with
          | true =>
              have hred : runLoop keep (false :: rest) i true st acc =
                  runLoop keep rest (i + 1) false st
                    (if keep st i then acc ++ [(st, i)] else acc) := rfl
              rw [hred]
              obtain ⟨hsti, hint, hleft⟩ := hA rfl
              rcases hcond with ⟨_, rfl⟩ | hback
              · have hmax2 : IsMaxRun pred s i :=
                  ⟨hsti, hi.le, hint, hleft, Or.inr (by rw [hgd])⟩
                have he : e = i := hmax.end_unique hmax2
                subst he
                rw [if_pos hkeep]
                exact runLoop_acc_mem _ _ _ _ _ _ _
                  (List.mem_append_right _ (List.mem_singleton.mpr rfl))
              · have hs1 : i + 1 ≤ s := by omega
                refine ih (i + 1) false st _ hdrop2.symm hi (by simp) ?_ (Or.inr hs1)
                intro _
                exact Or.inr (by simpa using hgd)
          | false =>
              have hred : runLoop keep (false :: rest) i false st acc =
                  runLoop keep rest (i + 1) false st acc := rfl
              rw [hred]
              have hback : i ≤ s := by
                rcases hcond with ⟨h, _⟩ | h
                · exact Bool.noConfusion h
                · exact h
              have hs1 : i + 1 ≤ s := by omega
              refine ih (i + 1) false st acc hdrop2.symm hi (by simp) ?_ (Or.inr hs1)
              intro _
              exact Or.inr (by simpa using hgd)

/-- A maximal run passing the duration filter is in the extracted run list. -/
theorem extractRuns_mem_of_maxRun {pred : List Bool} {keep : ℕ → ℕ → Bool} {s e : ℕ}
    (hmax : IsMaxRun pred s e) (hkeep : keep s e = true) :
    (s, e) ∈ extractRuns pred keep := by
  refine runLoop_mem_of_maxRun pred keep s e hmax hkeep pred 0 false 0 []
    (List.drop_zero pred) (Nat.zero_le _) (by simp) (fun _ => Or.inl rfl) (Or.inr (Nat.zero_le _))

/-- The extracted run list, viewed through its start indices, is strictly
increasing; in particular it has no duplicates. -/
theorem extractRuns_pairwise_lt (pred : List Bool) (keep : ℕ → ℕ → Bool) :
    (extractRuns pred keep).Pairwise (fun a b => a.1 < b.1) := by
  have hpw : (extractRuns pred keep).Pairwise (fun a b => a.2 ≤ b.1) :=
    runLoop_pairwise keep pred 0 false 0 [] (List.Pairwise.nil) (by simp) (by simp)
  have hlt : ∀ x ∈ extractRuns pred keep, x.1 < x.2 :=
    runLoop_lt keep pred 0 false 0 [] (by simp) (by simp)
  exact hpw.imp_of_mem (fun ha hb h => lt_of_lt_of_le (hlt _ ha) h)

theorem extractRuns_nodup (pred : List Bool) (keep : ℕ → ℕ → Bool) :
    (extractRuns pred keep).Nodup :=
  (extractRuns_pairwise_lt pred keep).imp (fun h => by
    intro heq
    rw [heq] at h
    exact lt_irrefl _ h)

/-!
## Smoothing, deduplication and counting lemmas
-/

theorem getD_nonneg {l : List ℚ} (hl : ∀ x ∈ l, 0 ≤ x) (m : ℕ) : 0 ≤ l.getD m 0 := by
  rw [List.getD_eq_getElem?_getD]
  cases h : l[m]? with
  | none => simp
  | some x => simpa using hl x (List.getElem?_mem h)

theorem reflectGet_nonneg {l : List ℚ} (hl : ∀ x ∈ l, 0 ≤ x) (j : ℤ) :
    0 ≤ reflectGet l j := by
  unfold reflectGet
  split
  · exact le_refl 0
  · split
    · exact getD_nonneg hl _
    · exact getD_nonneg hl _

/-- The moving average of a non-negative signal is non-negative. -/
theorem uniformFilter1d_nonneg {l : List ℚ} (hl : ∀ x ∈ l, 0 ≤ x) (size : ℕ) :
    ∀ v ∈ uniformFilter1d l size, 0 ≤ v := by
  intro v hv
  unfold uniformFilter1d at hv
  rcases List.mem_map.mp hv with ⟨i, _, rfl⟩
  refine div_nonneg (List.sum_nonneg ?_) (by positivity)
  intro x hx
  rcases List.mem_map.mp hx with ⟨t, _, rfl⟩
  exact reflectGet_nonneg hl _

/-- The smoothed absolute flow is non-negative. -/
theorem smoothedAbsFlow_nonneg (flowData : List ℚ) (flowSr : ℚ) :
    ∀ v ∈ smoothedAbsFlow flowData flowSr, 0 ≤ v := by
  refine uniformFilter1d_nonneg ?_ _
  intro x hx
  rcases List.mem_map.mp hx with ⟨y, _, rfl⟩
  exact abs_nonneg y

namespace ChunkedAHIAnalyzer

/-- Each dedup iteration only keeps input events or adds the new one. -/
theorem dedup_step_subset (acc : List Event) (ev : Event) :
    ∀ x ∈ dedup_step acc ev, x ∈ acc ∨ x = ev := by
  intro x hx
  cases hfd : find_duplicate ev acc with
  | none =>
      have heq : dedup_step acc ev = acc ++ [ev] := by
        unfold dedup_step
        rw [hfd]
      rw [heq] at hx
      rcases List.mem_append.mp hx with h | h
      · exact Or.inl h
      · exact Or.inr (List.mem_singleton.mp h)
  | some existing =>
      by_cases hlong : existing.end_time - existing.start_time < ev.end_time - ev.start_time
      · have heq : dedup_step acc ev = (acc.erase existing) ++ [ev] := by
          unfold dedup_step
          rw [hfd]
          exact if_pos hlong
        rw [heq] at hx
        rcases List.mem_append.mp hx with h | h
        · exact Or.inl (List.erase_subset _ _ h)
        · exact Or.inr (List.mem_singleton.mp h)
      · have heq : dedup_step acc ev = acc := by
          unfold dedup_step
          rw [hfd]
          exact if_neg hlong
        rw [heq] at hx
        exact Or.inl hx

theorem foldl_dedup_subset (l : List Event) :
    ∀ (acc : List Event) (x : Event), x ∈ l.foldl dedup_step acc → x ∈ acc ∨ x ∈ l := by
  induction l with
  | nil => intro acc x hx; exact Or.inl hx
  | cons e l ih =>
      intro acc x hx
      rcases ih (dedup_step acc e) x hx with h | h
      · rcases dedup_step_subset acc e x h with h2 | h2
        · exact Or.inl h2
        · exact Or.inr (h2 ▸ List.mem_cons_self e l)
      · exact Or.inr (List.mem_cons_of_mem _ h)

/-- Deduplication only discards events: the output is a subset of the
input. -/
theorem remove_duplicate_events_subset (l : List Event) :
    ∀ x ∈ remove_duplicate_events l, x ∈ l := by
  intro x hx
  unfold remove_duplicate_events at hx
  split at hx
  · exact absurd hx (List.not_mem_nil x)
  · rcases foldl_dedup_subset _ _ _ hx with h | h
    · exact absurd h (List.not_mem_nil x)
    · exact (List.mem_insertionSort _).mp h

/-- If no accepted event overlaps the new one by more than 50%, the inner
loop finds no duplicate. -/
theorem find_duplicate_eq_none {ev : Event} :
    ∀ {l : List Event}, (∀ a ∈ l, overlap_fraction ev a ≤ 1/2) →
      find_duplicate ev l = none := by
  intro l
  induction l with
  | nil => intro _; rfl
  | cons a l ih =>
      intro h
      unfold find_duplicate
      rw [if_neg (not_lt.mpr (h a (List.mem_cons_self a l)))]
      exact ih (fun b hb => h b (List.mem_cons_of_mem _ hb))

/-- On a list in which no later event overlaps an earlier one by more than
50%, the dedup fold appends every event unchanged. -/
theorem foldl_dedup_of_clean :
    ∀ (l pre : List Event),
      (∀ b ∈ l, ∀ a ∈ pre, overlap_fraction b a ≤ 1/2) →
      l.Pairwise (fun a b => overlap_fraction b a ≤ 1/2) →
      l.foldl dedup_step pre = pre ++ l := by
  intro l
  induction l with
  | nil => intro pre _ _; simp
  | cons e l ih =>
      intro pre hcross hpw
      have hstep : dedup_step pre e = pre ++ [e] := by
        unfold dedup_step
        rw [find_duplicate_eq_none (fun a ha => hcross e (List.mem_cons_self e l) a ha)]

      have hrec := ih (pre ++ [e]) ?_ (List.Pairwise.sublist (List.sublist_cons_self e l) hpw)
      · simpa [hstep] using hrec
      · intro b hb a ha
        rcases List.mem_append.mp ha with h | h
        · exact hcross b (List.mem_cons_of_mem _ hb) a h
        · rcases List.mem_singleton.mp h with rfl
          exact (List.pairwise_cons.mp hpw).1 b hb

/-- Deduplication is the identity on a list already sorted by start time in
which no two events overlap by more than 50% of the longer duration. -/
theorem remove_duplicate_events_of_clean {l : List Event}
    (hsorted : l.Sorted (fun a b => a.start_time ≤ b.start_time))
    (hpw : l.Pairwise (fun a b => overlap_fraction b a ≤ 1/2)) :
    remove_duplicate_events l = l := by
  unfold remove_duplicate_events
  split
  · exact (by assumption : l = []).symm
  · rw [hsorted.insertionSort_eq]
    simpa using foldl_dedup_of_clean l [] (by simp) hpw

end ChunkedAHIAnalyzer

/-- Counting lemma: a run with a unique start index that the corroboration
promotes yields exactly one event with its sample indices. -/
theorem countP_filterMap_eq_one {corr : ℕ × ℕ → Option Event} {s e : ℕ} {ev : Event}
    (hkey : ∀ c ev2, corr c = some ev2 → ev2.start_sample = c.1 ∧ ev2.end_sample = c.2) :
    ∀ {runs : List (ℕ × ℕ)},
      runs.Pairwise (fun a b => a.1 < b.1) → (s, e) ∈ runs → corr (s, e) = some ev →
      ((runs.filterMap corr).countP
        (fun v => decide (v.start_sample = s ∧ v.end_sample = e))) = 1 := by
  intro runs
  induction runs with
  | nil => intro _ hmem _; exact absurd hmem (List.not_mem_nil _)
  | cons r rest ih =>
      intro hpw hmem hev
      rcases List.pairwise_cons.mp hpw with ⟨hhead, hpwrest⟩
      rcases List.mem_cons.mp hmem with heq | hmemrest
      · subst heq
        rw [List.filterMap_cons, hev]
        rw [List.countP_cons]
        have hp : (decide (ev.start_sample = s ∧ ev.end_sample = e)) = true := by
          rcases hkey _ _ hev with ⟨h1, h2⟩
          simp [h1, h2]
        rw [hp]
        have hz : ((rest.filterMap corr).countP
            (fun v => decide (v.start_sample = s ∧ v.end_sample = e))) = 0 := by
          rw [List.countP_eq_zero]
          intro a ha
          rcases List.mem_filterMap.mp ha with ⟨c, hc, hcorr⟩
          rcases hkey _ _ hcorr with ⟨h1, _⟩
          have hlt : s < c.1 := hhead c hc
          simp only [decide_eq_true_eq, not_and]
          intro hfalse
          omega
        rw [hz]
        simp
      · rw [List.filterMap_cons]
        have hne : r.1 < s := hhead _ hmemrest
        cases hcr : corr r with
        | none => exact ih hpwrest hmemrest hev
        | some ev2 =>
            rw [List.countP_cons]
            have hp : (decide (ev2.start_sample = s ∧ ev2.end_sample = e)) = false := by
              rcases hkey _ _ hcr with ⟨h1, _⟩
              simp only [decide_eq_false_iff_not, not_and]
              intro hfalse
              omega
            rw [hp]
            simpa using ih hpwrest hmemrest hev

/-!
## Detector-level invariants (claim C1 support)
-/

theorem extractRuns_keep {pred : List Bool} {keep : ℕ → ℕ → Bool} :
    ∀ x ∈ extractRuns pred keep, keep x.1 x.2 = true :=
  runLoop_keep keep pred 0 false 0 [] (by simp)

theorem extractRuns_lt {pred : List Bool} {keep : ℕ → ℕ → Bool} :
    ∀ x ∈ extractRuns pred keep, x.1 < x.2 :=
  runLoop_lt keep pred 0 false 0 [] (by simp) (by simp)

/-- The fields of a promoted hypopnea event in terms of its candidate run. -/
theorem corroborate_some_fields {spo2Smooth : List ℚ} {flowSr spo2Sr offset : ℚ}
    {c : ℕ × ℕ} {ev : Event}
    (h : corroborate spo2Smooth flowSr spo2Sr offset c = some ev) :
    ev.start_sample = c.1 ∧ ev.end_sample = c.2 ∧
    ev.start_time = offset + (c.1 : ℚ) / flowSr ∧
    ev.end_time = offset + (c.2 : ℚ) / flowSr ∧
    ev.duration = ((c.2 : ℚ) - (c.1 : ℚ)) / flowSr := by
  simp only [corroborate] at h
  split at h
  · exact absurd h (by simp)
  · split at h
    · exact absurd h (by simp)
    · split at h
      · injection h with h
        subst h
        exact ⟨rfl, rfl, rfl, rfl, rfl⟩
      · exact absurd h (by simp)

theorem eventInv_of_run (fsr offset : ℚ) (c : ℕ × ℕ)
    (hkeep : durationKeep fsr c.1 c.2 = true)
    {ev : Event}
    (hst : ev.start_time = offset + (c.1 : ℚ) / fsr)
    (hen : ev.end_time = offset + (c.2 : ℚ) / fsr)
    (hdu : ev.duration = ((c.2 : ℚ) - (c.1 : ℚ)) / fsr) : EventInv ev := by
  have hdur : min_event_duration ≤ ((c.2 : ℚ) - (c.1 : ℚ)) / fsr :=
    of_decide_eq_true hkeep
  have h10 : (0:ℚ) < min_event_duration := by norm_num [min_event_duration]
  have h0 : (0:ℚ) < ((c.2 : ℚ) - (c.1 : ℚ)) / fsr := lt_of_lt_of_le h10 hdur
  refine ⟨hdu ▸ hdur, ?_, ?_⟩
  · rw [hdu, hst, hen]
    ring
  · rw [hst, hen]
    rw [sub_div] at h0
    linarith

theorem detect_apnea_in_chunk_inv (flowChunk : List ℚ) (cst fsr b : ℚ) :
    ∀ ev ∈ ChunkedAHIAnalyzer.detect_apnea_in_chunk flowChunk cst fsr b, EventInv ev := by
  intro ev hev
  unfold ChunkedAHIAnalyzer.detect_apnea_in_chunk at hev
  rcases List.mem_map.mp hev with ⟨c, hc, rfl⟩
  exact eventInv_of_run fsr cst c (extractRuns_keep c hc) rfl rfl rfl

theorem detect_apnea_events_inv (flowData : List ℚ) (fsr : ℚ) (gb : Option ℚ) :
    ∀ ev ∈ AHIAnalyzer.detect_apnea_events flowData fsr gb, EventInv ev := by
  intro ev hev
  unfold AHIAnalyzer.detect_apnea_events at hev
  rcases List.mem_map.mp hev with ⟨c, hc, rfl⟩
  refine eventInv_of_run fsr 0 c (extractRuns_keep c hc) ?_ ?_ rfl
  · simp
  · simp

theorem detect_hypopnea_in_chunk_inv (flowChunk spo2Chunk : List ℚ) (cst cet fsr ssr b : ℚ) :
    ∀ ev ∈ ChunkedAHIAnalyzer.detect_hypopnea_in_chunk flowChunk spo2Chunk cst cet fsr ssr b,
      EventInv ev := by
  intro ev hev
  simp only [ChunkedAHIAnalyzer.detect_hypopnea_in_chunk] at hev
  split at hev
  · exact absurd hev (List.not_mem_nil ev)
  · rcases List.mem_filterMap.mp hev with ⟨c, hc, hcorr⟩
    rcases corroborate_some_fields hcorr with ⟨_, _, hst, hen, hdu⟩
    exact eventInv_of_run fsr cst c (extractRuns_keep c hc) hst hen hdu

theorem detect_hypopnea_events_inv (flowData spo2Data : List ℚ) (fsr ssr : ℚ)
    (gb : Option ℚ) :
    ∀ ev ∈ AHIAnalyzer.detect_hypopnea_events flowData spo2Data fsr ssr gb, EventInv ev := by
  intro ev hev
  unfold AHIAnalyzer.detect_hypopnea_events at hev
  rcases List.mem_filterMap.mp hev with ⟨c, hc, hcorr⟩
  rcases corroborate_some_fields hcorr with ⟨_, _, hst, hen, hdu⟩
  exact eventInv_of_run fsr 0 c (extractRuns_keep c hc) hst hen hdu

/-- Membership in an analysis result's `all_events` comes from one of the two
pooled detector lists. -/
theorem mem_resultEvents_mk {o : Option AhiResult} {A H : List Event} {ev : Event}
    (hev : ev ∈ resultEvents (o.map fun ahi =>
      { ahi_analysis := ahi, apnea_events := A, hypopnea_events := H,
        all_events := (A ++ H).insertionSort (fun a b => a.start_time ≤ b.start_time) })) :
    ev ∈ A ∨ ev ∈ H := by
  cases o with
  | none => exact absurd hev (List.not_mem_nil ev)
  | some a =>
      simp only [Option.map_some, resultEvents] at hev
      exact List.mem_append.mp ((List.mem_insertionSort _).mp hev)

/-- Every event in a chunked analysis result satisfies the invariant. -/
theorem chunked_analyze_events_inv (flow spo2 : List ℚ) (fsr ssr : ℚ) (cmin omin : ℤ) :
    ∀ ev ∈ resultEvents (ChunkedAHIAnalyzer.analyze flow spo2 fsr ssr cmin omin),
      EventInv ev := by
  intro ev hev
  unfold ChunkedAHIAnalyzer.analyze at hev
  rcases mem_resultEvents_mk hev with h | h
  · rcases List.mem_flatMap.mp
      (ChunkedAHIAnalyzer.remove_duplicate_events_subset _ _ h) with ⟨idx, _, hdet⟩
    exact detect_apnea_in_chunk_inv _ _ _ _ ev hdet
  · rcases List.mem_flatMap.mp
      (ChunkedAHIAnalyzer.remove_duplicate_events_subset _ _ h) with ⟨idx, _, hdet⟩
    exact detect_hypopnea_in_chunk_inv _ _ _ _ _ _ _ ev hdet

/-- Every event in a single-pass analysis result satisfies the invariant. -/
theorem single_analyze_events_inv (flow spo2 : List ℚ) (fsr ssr : ℚ) (gb : Option ℚ) :
    ∀ ev ∈ resultEvents (AHIAnalyzer.analyze flow spo2 fsr ssr gb), EventInv ev := by
  intro ev hev
  unfold AHIAnalyzer.analyze at hev
  rcases mem_resultEvents_mk hev with h | h
  · exact detect_apnea_events_inv _ _ _ ev h
  · exact detect_hypopnea_events_inv _ _ _ _ _ ev h

/-!
## Claims
-/

/-- C1: for every recording analyzed (chunked or single-pass), every event in
the returned event list satisfies `duration_s >= 10.0`,
`end_time_s > start_time_s`, and `duration_s == end_time_s - start_time_s`. -/
theorem C1_event_invariants (flow spo2 : List ℚ) (fsr ssr : ℚ) (cmin omin : ℤ)
    (gb : Option ℚ) (ev : Event)
    (hev : ev ∈ resultEvents (ChunkedAHIAnalyzer.analyze flow spo2 fsr ssr cmin omin) ∨
           ev ∈ resultEvents (AHIAnalyzer.analyze flow spo2 fsr ssr gb)) :
    10 ≤ ev.duration ∧ ev.start_time < ev.end_time ∧
      ev.duration = ev.end_time - ev.start_time := by
  have hinv : EventInv ev := by
    rcases hev with h | h
    · exact chunked_analyze_events_inv _ _ _ _ _ _ ev h
    · exact single_analyze_events_inv _ _ _ _ _ ev h
  rcases hinv with ⟨h1, h2, h3⟩
  refine ⟨?_, h3, h2⟩
  simpa [min_event_duration] using h1

/-- Witness for C1: a 24 s recording at 0.5 Hz with a 12 s flow cessation
yields the concrete apnea event `wEvent`, which satisfies the invariant. -/
theorem C1_witness :
    wEvent ∈ resultEvents (ChunkedAHIAnalyzer.analyze wFlow wSpo2 (1/2) (1/3) 30 2) ∧
    (10 ≤ wEvent.duration ∧ wEvent.start_time < wEvent.end_time ∧
      wEvent.duration = wEvent.end_time - wEvent.start_time) :=
  ⟨by with_unfolding_all decide, C1_event_invariants wFlow wSpo2 (1/2) (1/3) 30 2 none wEvent
    (Or.inl (by with_unfolding_all decide))⟩

/-- Helper for C10: a below-threshold extraction over a non-negative smoothed
signal with a non-positive threshold yields nothing. -/
theorem extractRuns_map_nil {α : Type} (smooth : List ℚ) (thr : ℚ) (hthr : thr ≤ 0)
    (hsm : ∀ v ∈ smooth, 0 ≤ v) (keep : ℕ → ℕ → Bool) (mk : ℕ × ℕ → α) :
    (extractRuns (smooth.map (fun v => decide (v < thr))) keep).map mk = [] := by
  have hall : ∀ bv ∈ smooth.map (fun v => decide (v < thr)), bv = false := by
    intro bv hbv
    rcases List.mem_map.mp hbv with ⟨v, hv, rfl⟩
    simp only [decide_eq_false_iff_not, not_lt]
    exact le_trans hthr (hsm v hv)
  unfold extractRuns
  rw [runLoop_all_false _ _ _ _ _ hall, List.map_nil]

/-- C10: with a zero baseline the apnea detectors compare the non-negative
smoothed absolute flow strictly below a zero threshold, so they return an
empty event list for every flow input (and raise no error). -/
theorem C10_zero_baseline_no_apnea (flow : List ℚ) (fsr offset : ℚ) :
    ChunkedAHIAnalyzer.detect_apnea_in_chunk flow offset fsr 0 = [] ∧
    AHIAnalyzer.detect_apnea_events flow fsr (some 0) = [] := by
  constructor
  · unfold ChunkedAHIAnalyzer.detect_apnea_in_chunk
    exact extractRuns_map_nil _ _ (by norm_num [apnea_threshold])
      (smoothedAbsFlow_nonneg flow fsr) _ _
  · unfold AHIAnalyzer.detect_apnea_events
    exact extractRuns_map_nil _ _
      (by norm_num [AHIAnalyzer.calculate_baseline_flow, apnea_threshold])
      (smoothedAbsFlow_nonneg flow fsr) _ _

/-- C9: a hypopnea candidate whose clamped SpO2 index range is empty or
inverted, or whose pre-event corroboration window is empty, is skipped
(yields `none`) and leaves the events of the remaining candidates
unchanged. -/
theorem C9_empty_spo2_skip (spo2Smooth : List ℚ) (fsr ssr offset : ℚ) (s e : ℕ)
    (cs : List (ℕ × ℕ))
    (h : spo2EndIdx spo2Smooth.length fsr ssr e ≤ spo2StartIdx fsr ssr s ∨
         preWindow spo2Smooth fsr ssr s = []) :
    corroborate spo2Smooth fsr ssr offset (s, e) = none ∧
    ((s, e) :: cs).filterMap (corroborate spo2Smooth fsr ssr offset) =
      cs.filterMap (corroborate spo2Smooth fsr ssr offset) := by
  have hnone : corroborate spo2Smooth fsr ssr offset (s, e) = none := by
    simp only [corroborate]
    rcases h with h | h
    · rw [if_pos h]
    · split
      · rfl
      · rw [h]
        rfl
  refine ⟨hnone, ?_⟩
  rw [List.filterMap_cons, hnone]

/-- Witness for C9: candidate `(3, 3)` maps to the empty range `[3, 3)` and
is skipped. -/
theorem C9_witness :
    corroborate (List.replicate 10 (95:ℚ)) 1 1 0 (3, 3) = none ∧
    ([((3:ℕ), (3:ℕ))].filterMap (corroborate (List.replicate 10 (95:ℚ)) 1 1 0) =
      ([] : List (ℕ × ℕ)).filterMap (corroborate (List.replicate 10 (95:ℚ)) 1 1 0)) :=
  C9_empty_spo2_skip (List.replicate 10 (95:ℚ)) 1 1 0 3 3 []
    (Or.inl (by with_unfolding_all decide))

/-- Counterexample for C2: at `recording_duration_hours = 0` the aggregator
fails (Python raises `ZeroDivisionError` in the unguarded per-hour breakdown
divisions), so it does not "return a result" for every duration. -/
theorem C2_counterexample : AHIAnalyzer.calculate_ahi [] [] 0 = none := by
  with_unfolding_all decide

/-- C2 (amended): for every `recording_duration_hours ≠ 0` the aggregator
returns a result whose (rounded) `ahi_score` and severity band follow the
claimed formula; at exactly `0` it fails (see the counterexample). -/
theorem C2_ahi_aggregator (ap hy : List Event) (d : ℚ) (hd : d ≠ 0) :
    ∃ r, AHIAnalyzer.calculate_ahi ap hy d = some r ∧
      r.ahi_score = pyRound1 (if 0 < d then ((ap.length + hy.length : ℕ) : ℚ) / d else 0) ∧
      r.severity =
        (if (if 0 < d then ((ap.length + hy.length : ℕ) : ℚ) / d else 0) < 5 then "Normal"
         else if (if 0 < d then ((ap.length + hy.length : ℕ) : ℚ) / d else 0) < 15 then "Mild"
         else if (if 0 < d then ((ap.length + hy.length : ℕ) : ℚ) / d else 0) < 30 then "Moderate"
         else "Severe") ∧
      r.severity_color =
        (if (if 0 < d then ((ap.length + hy.length : ℕ) : ℚ) / d else 0) < 5 then "green"
         else if (if 0 < d then ((ap.length + hy.length : ℕ) : ℚ) / d else 0) < 15 then "yellow"
         else if (if 0 < d then ((ap.length + hy.length : ℕ) : ℚ) / d else 0) < 30 then "orange"
         else "red") := by
  have h36 : d * 3600 ≠ 0 := mul_ne_zero hd (by norm_num)
  unfold AHIAnalyzer.calculate_ahi
  simp only [pyDiv, if_neg hd, if_neg h36]
  exact ⟨_, rfl, rfl, rfl, rfl⟩

/-- Witness for C2 (amended): 2 apneas + 3 hypopneas over 2.0 h give AHI 2.5
("Normal"); over 0.5 h they give AHI 10.0 ("Mild"). -/
theorem C2_witness :
    (∃ r, AHIAnalyzer.calculate_ahi [sampleEvent 0 10, sampleEvent 20 30]
        [sampleEvent 40 50, sampleEvent 60 70, sampleEvent 80 90] 2 = some r ∧
        r.ahi_score = 5/2 ∧ r.severity = "Normal") ∧
    (∃ r, AHIAnalyzer.calculate_ahi [sampleEvent 0 10, sampleEvent 20 30]
        [sampleEvent 40 50, sampleEvent 60 70, sampleEvent 80 90] (1/2) = some r ∧
        r.ahi_score = 10 ∧ r.severity = "Mild") := by
  constructor
  · obtain ⟨r, hr, h1, h2, _⟩ := C2_ahi_aggregator
      [sampleEvent 0 10, sampleEvent 20 30]
      [sampleEvent 40 50, sampleEvent 60 70, sampleEvent 80 90] 2 (by norm_num)
    refine ⟨r, hr, ?_, ?_⟩
    · rw [h1]
      with_unfolding_all decide
    · rw [h2]
      with_unfolding_all decide
  · obtain ⟨r, hr, h1, h2, _⟩ := C2_ahi_aggregator
      [sampleEvent 0 10, sampleEvent 20 30]
      [sampleEvent 40 50, sampleEvent 60 70, sampleEvent 80 90] (1/2) (by norm_num)
    refine ⟨r, hr, ?_, ?_⟩
    · rw [h1]
      with_unfolding_all decide
    · rw [h2]
      with_unfolding_all decide

/-- Counterexample for C3: the pair `[100,130]`, `[115,145]` overlaps by
exactly 50% of the longer duration, the code requires strictly more than
50%, so the deduplicator keeps BOTH events instead of collapsing them. -/
theorem C3_counterexample :
    ChunkedAHIAnalyzer.remove_duplicate_events [sampleEvent 100 130, sampleEvent 115 145] =
      [sampleEvent 100 130, sampleEvent 115 145] := by
  with_unfolding_all decide

/-- C3 (amended): whenever a later event overlaps an accepted one by strictly
more than 50% of the larger of the two durations, the pair collapses to the
event with the longer duration (the accepted one on ties). -/
theorem C3_dedup_pair (a b : Event)
    (hab : a.start_time ≤ b.start_time)
    (hover : 1/2 < ChunkedAHIAnalyzer.overlap_fraction b a) :
    ChunkedAHIAnalyzer.remove_duplicate_events [a, b] =
      if a.end_time - a.start_time < b.end_time - b.start_time then [b] else [a] := by
  unfold ChunkedAHIAnalyzer.remove_duplicate_events
  rw [if_neg (by simp)]
  have hsort : ([a, b].insertionSort (fun x y => x.start_time ≤ y.start_time)) = [a, b] := by
    simp [List.insertionSort, List.orderedInsert, hab]
  rw [hsort]
  show ChunkedAHIAnalyzer.dedup_step (ChunkedAHIAnalyzer.dedup_step [] a) b = _
  have hstep1 : ChunkedAHIAnalyzer.dedup_step [] a = [a] := by
    unfold ChunkedAHIAnalyzer.dedup_step
    rfl
  rw [hstep1]
  unfold ChunkedAHIAnalyzer.dedup_step
  have hfd : ChunkedAHIAnalyzer.find_duplicate b [a] = some a := by
    unfold ChunkedAHIAnalyzer.find_duplicate
    rw [if_pos hover]
  rw [hfd]
  show (if a.end_time - a.start_time < b.end_time - b.start_time
        then ([a].erase a) ++ [b] else [a]) =
      if a.end_time - a.start_time < b.end_time - b.start_time then [b] else [a]
  split
  · simp
  · rfl

/-- Witness for C3 (amended): `[100,130]` and `[110,140]` overlap by 2/3 of
the longer duration; durations are equal, so the earlier event is kept. -/
theorem C3_witness :
    ChunkedAHIAnalyzer.remove_duplicate_events [sampleEvent 100 130, sampleEvent 110 140] =
      [sampleEvent 100 130] := by
  have h := C3_dedup_pair (sampleEvent 100 130) (sampleEvent 110 140)
    (by with_unfolding_all decide) (by with_unfolding_all decide)
  rw [h]
  with_unfolding_all decide

/-- C5 (code evaluation): with 25 flow samples at 1/180 Hz and the default
30-minute chunks with 2-minute overlap, the constructor computes
`chunk_size = 10`, `overlap_size = 0`; the code's floor-division formula
yields 2 chunks `[0,10)` and `[10,20)`, not the ceil formula's 3, and flow
sample 20 falls inside no processed chunk. -/
theorem C5_chunk_gap :
    ChunkedAHIAnalyzer.flow_chunk_size 30 (1/180) = 10 ∧
    ChunkedAHIAnalyzer.flow_overlap_size 2 (1/180) = 0 ∧
    ChunkedAHIAnalyzer.calculate_num_chunks 25 10 0 = 2 ∧
    (Int.fdiv (25 - 10 + (10 - 1)) 10 + 1 = 3) ∧
    ((List.range (ChunkedAHIAnalyzer.calculate_num_chunks 25 10 0).toNat).filter
      (fun i => decide (ChunkedAHIAnalyzer.chunk_flow_start i 10 0 ≤ 20 ∧
        20 < ChunkedAHIAnalyzer.chunk_flow_end 25 i 10 0))) = [] := by
  with_unfolding_all decide

/-- C6 (code evaluation): an all-zero flow recording produces a zero
baseline, yet both analyzers proceed and return a normal result — no
explicit failure is surfaced (the claim says it must be). -/
theorem C6_degenerate_baseline_tolerated :
    ChunkedAHIAnalyzer.calculate_global_baseline zeroFlow = 0 ∧
    AHIAnalyzer.calculate_baseline_flow zeroFlow none = 0 ∧
    (ChunkedAHIAnalyzer.analyze zeroFlow constSpo2 1 1 30 2).isSome = true ∧
    (AHIAnalyzer.analyze zeroFlow constSpo2 1 1 none).isSome = true := by
  with_unfolding_all decide

/-- Counterexample for C8: the deduplicator is not idempotent.  On the list
`[0,100], [40,160], [45,153]` the third event replaces the first (>50%
overlap, longer) and is appended after the `break`, leaving it >50%
overlapped with `[40,160]` in the output; a second pass removes it. -/
theorem C8_counterexample :
    ChunkedAHIAnalyzer.remove_duplicate_events
        (ChunkedAHIAnalyzer.remove_duplicate_events
          [sampleEvent 0 100, sampleEvent 40 160, sampleEvent 45 153]) ≠
      ChunkedAHIAnalyzer.remove_duplicate_events
        [sampleEvent 0 100, sampleEvent 40 160, sampleEvent 45 153] := by
  with_unfolding_all decide

/-- C8 (amended): the deduplicator returns unchanged any list that is sorted
by start time and contains no pair overlapping by more than 50% of the longer
duration; its own output need not have that property, so idempotence fails in
general (see the counterexample). -/
theorem C8_dedup_idempotent_on_clean (l : List Event)
    (hsorted : l.Sorted (fun a b => a.start_time ≤ b.start_time))
    (hpw : l.Pairwise (fun a b => ChunkedAHIAnalyzer.overlap_fraction b a ≤ 1/2)) :
    ChunkedAHIAnalyzer.remove_duplicate_events l = l :=
  ChunkedAHIAnalyzer.remove_duplicate_events_of_clean hsorted hpw

/-- Witness for C8 (amended): two disjoint sorted events are returned
unchanged. -/
theorem C8_witness :
    ChunkedAHIAnalyzer.remove_duplicate_events [sampleEvent 0 20, sampleEvent 100 120] =
      [sampleEvent 0 20, sampleEvent 100 120] :=
  C8_dedup_idempotent_on_clean [sampleEvent 0 20, sampleEvent 100 120]
    (by unfold List.Sorted
        with_unfolding_all decide)
    (by with_unfolding_all decide)

/-- The corroboration of the empty SpO2 array always skips. -/
theorem corroborate_nil (fsr ssr offset : ℚ) (c : ℕ × ℕ) :
    corroborate [] fsr ssr offset c = none := by
  simp only [corroborate]
  rw [if_pos]
  calc spo2EndIdx ([] : List ℚ).length fsr ssr c.2
      ≤ 0 := by
        unfold spo2EndIdx
        simp only [List.length_nil, Nat.cast_zero]
        exact min_le_left _ _
    _ ≤ spo2StartIdx fsr ssr c.1 := le_max_left _ _

/-- Whether a candidate is promoted does not depend on the event-time
offset (only the emitted time fields do). -/
theorem corroborate_isSome_offset (spo2Smooth : List ℚ) (fsr ssr o1 o2 : ℚ) (c : ℕ × ℕ) :
    (corroborate spo2Smooth fsr ssr o1 c).isSome =
      (corroborate spo2Smooth fsr ssr o2 c).isSome := by
  simp only [corroborate]
  split
  · rfl
  · split
    · rfl
    · split
      · rfl
      · rfl

/-- Counterexample for C4: a 12 s interval at 20% of baseline (an 80%
reduction, inside the claimed 30–90% band) with a genuine ≥3-point
desaturation yields NO hypopnea event: the code's band is
`0.3·baseline ≤ value ≤ 0.7·baseline` (a 30–70% reduction), and 0.2·baseline
falls below it. -/
theorem C4_counterexample :
    ChunkedAHIAnalyzer.detect_hypopnea_in_chunk hypFlowDeep hypSpo2 0 20 (1/2) (1/3) 1 = [] ∧
    AHIAnalyzer.detect_hypopnea_events hypFlowDeep hypSpo2 (1/2) (1/3) (some 1) = [] := by
  constructor
  · with_unfolding_all decide
  · with_unfolding_all decide

/-- C4 (amended): every maximal interval of at least 10 s during which the
smoothed absolute flow lies within `[0.30·baseline, 0.70·baseline]`
(a 30–70% reduction, not 30–90% as claimed) whose SpO2 corroboration
succeeds (mapped range nonempty and computed desaturation ≥ 3) is reported
as exactly one hypopnea event, in both the chunked and the single-pass
detector. -/
theorem C4_hypopnea_maximal (flowChunk spo2Chunk : List ℚ) (cst cet fsr ssr b : ℚ)
    (s e : ℕ)
    (hmax : IsMaxRun ((smoothedAbsFlow flowChunk fsr).map
      (fun v => decide (b * hypopnea_min_threshold ≤ v ∧ v ≤ b * hypopnea_max_threshold))) s e)
    (hkeep : durationKeep fsr s e = true)
    (hcorr : (corroborate (smoothedSpo2 spo2Chunk ssr) fsr ssr cst (s, e)).isSome = true) :
    ((ChunkedAHIAnalyzer.detect_hypopnea_in_chunk flowChunk spo2Chunk cst cet fsr ssr b).countP
      (fun v => decide (v.start_sample = s ∧ v.end_sample = e))) = 1 ∧
    ((AHIAnalyzer.detect_hypopnea_events flowChunk spo2Chunk fsr ssr (some b)).countP
      (fun v => decide (v.start_sample = s ∧ v.end_sample = e))) = 1 := by
  have hkey : ∀ (c : ℕ × ℕ) (ev2 : Event),
      ∀ {o : ℚ}, corroborate (smoothedSpo2 spo2Chunk ssr) fsr ssr o c = some ev2 →
      ev2.start_sample = c.1 ∧ ev2.end_sample = c.2 := by
    intro c ev2 o h
    exact ⟨(corroborate_some_fields h).1, (corroborate_some_fields h).2.1⟩
  have hne : spo2Chunk ≠ [] := by
    intro hnil
    rw [hnil] at hcorr
    have hz : smoothedSpo2 [] ssr = [] := rfl
    rw [hz, corroborate_nil] at hcorr
    exact Bool.noConfusion hcorr
  obtain ⟨ev, hev⟩ := Option.isSome_iff_exists.mp hcorr
  have hcorr0 : (corroborate (smoothedSpo2 spo2Chunk ssr) fsr ssr 0 (s, e)).isSome = true := by
    rw [← corroborate_isSome_offset _ _ _ cst 0]
    exact hcorr
  obtain ⟨ev0, hev0⟩ := Option.isSome_iff_exists.mp hcorr0
  constructor
  · unfold ChunkedAHIAnalyzer.detect_hypopnea_in_chunk
    rw [if_neg hne]
    exact countP_filterMap_eq_one (fun c ev2 h => hkey c ev2 h)
      (extractRuns_pairwise_lt _ _)
      (extractRuns_mem_of_maxRun hmax hkeep) hev
  · unfold AHIAnalyzer.detect_hypopnea_events
    exact countP_filterMap_eq_one (fun c ev2 h => hkey c ev2 h)
      (extractRuns_pairwise_lt _ _)
      (extractRuns_mem_of_maxRun hmax hkeep) hev0

/-- Witness for C4 (amended): `hypFlow` at 0.5 Hz with baseline 1 has the
maximal half-amplitude interval `[2, 8)` (12 s) and a 5-point desaturation;
both detectors report it exactly once. -/
theorem C4_witness :
    ((ChunkedAHIAnalyzer.detect_hypopnea_in_chunk hypFlow hypSpo2 0 24 (1/2) (1/3) 1).countP
      (fun v => decide (v.start_sample = 2 ∧ v.end_sample = 8))) = 1 ∧
    ((AHIAnalyzer.detect_hypopnea_events hypFlow hypSpo2 (1/2) (1/3) (some 1)).countP
      (fun v => decide (v.start_sample = 2 ∧ v.end_sample = 8))) = 1 :=
  C4_hypopnea_maximal hypFlow hypSpo2 0 24 (1/2) (1/3) 1 2 8
    (by with_unfolding_all decide) (by with_unfolding_all decide)
    (by with_unfolding_all decide)

/-!
## Chunked vs. single-pass equivalence (claim C7)
-/

namespace ChunkedAHIAnalyzer

/-- A recording no longer than one chunk is processed as exactly one chunk. -/
theorem num_chunks_one {n : ℕ} {C O : ℤ} (hlen : (n : ℤ) ≤ C) :
    calculate_num_chunks n C O = 1 := by
  simp only [calculate_num_chunks]
  split
  · rfl
  · rename_i h
    have hpos : 0 < C - O := by omega
    have hfd : Int.fdiv ((n : ℤ) - C) (C - O) ≤ 0 := by
      rw [Int.fdiv_eq_ediv _ (le_of_lt hpos)]
      calc ((n : ℤ) - C) / (C - O) ≤ 0 / (C - O) :=
            Int.ediv_le_ediv hpos (by omega)
        _ = 0 := Int.zero_ediv _
    omega

/-- Chunk 0 of a recording no longer than one chunk, whose SpO2 channel is
fully covered by the flow time span, is the whole recording. -/
theorem get_chunk_data_zero (flow spo2 : List ℚ) (fsr ssr : ℚ) (C O : ℤ)
    (hlen : (flow.length : ℤ) ≤ C)
    (hspo : (spo2.length : ℤ) ≤ pyInt ((((flow.length : ℤ) : ℚ)) / fsr * ssr)) :
    get_chunk_data flow spo2 fsr ssr C O 0 =
      { flowChunk := flow, spo2Chunk := spo2, chunkStartTime := ((0 : ℤ) : ℚ) / fsr,
        chunkEndTime := (((flow.length : ℤ) : ℚ)) / fsr } := by
  have hstart : chunk_flow_start 0 C O = 0 := rfl
  have hend : chunk_flow_end flow.length 0 C O = (flow.length : ℤ) := by
    unfold chunk_flow_end
    rw [hstart, zero_add]
    exact min_eq_right hlen
  have hslice1 : pySlice flow 0 (flow.length : ℤ) = flow := by
    unfold pySlice
    simp
  have hzero : ((0 : ℤ) : ℚ) / fsr = 0 := by simp
  have hs0 : max 0 (pyInt (((0 : ℤ) : ℚ) / fsr * ssr)) = 0 := by
    rw [hzero, zero_mul]
    rfl
  have hs1 : min (spo2.length : ℤ) (pyInt ((((flow.length : ℤ) : ℚ)) / fsr * ssr)) =
      (spo2.length : ℤ) := min_eq_left hspo
  have hslice2 : pySlice spo2 0 (spo2.length : ℤ) = spo2 := by
    unfold pySlice
    simp
  simp only [get_chunk_data, hstart, hend, hs0, hs1, hslice1, hslice2]

/-- At chunk offset 0 the chunked apnea detector coincides with the
single-pass detector computing its own (identical) baseline. -/
theorem detect_apnea_chunk_zero (flow : List ℚ) (fsr : ℚ) :
    detect_apnea_in_chunk flow 0 fsr (calculate_global_baseline flow) =
      AHIAnalyzer.detect_apnea_events flow fsr none := by
  unfold detect_apnea_in_chunk AHIAnalyzer.detect_apnea_events
  simp only [AHIAnalyzer.calculate_baseline_flow, calculate_global_baseline, zero_add]

/-- At chunk offset 0 the chunked hypopnea detector coincides with the
single-pass detector. -/
theorem detect_hypopnea_chunk_zero (flow spo2 : List ℚ) (cet : ℚ) (fsr ssr : ℚ) :
    detect_hypopnea_in_chunk flow spo2 0 cet fsr ssr (calculate_global_baseline flow) =
      AHIAnalyzer.detect_hypopnea_events flow spo2 fsr ssr none := by
  by_cases hnil : spo2 = []
  · subst hnil
    unfold detect_hypopnea_in_chunk AHIAnalyzer.detect_hypopnea_events
    rw [if_pos rfl]
    symm
    rw [List.filterMap_eq_nil_iff]
    intro c _
    exact corroborate_nil fsr ssr 0 c
  · unfold detect_hypopnea_in_chunk AHIAnalyzer.detect_hypopnea_events
    rw [if_neg hnil]
    simp only [AHIAnalyzer.calculate_baseline_flow, calculate_global_baseline]

end ChunkedAHIAnalyzer

/-- Disjoint, positively-extended events are sorted and contain no >50%
overlapping pair. -/
theorem clean_of_disjoint {evs : List Event}
    (hpw : evs.Pairwise (fun a b => a.end_time ≤ b.start_time))
    (hlt : ∀ ev ∈ evs, ev.start_time < ev.end_time) :
    evs.Sorted (fun a b => a.start_time ≤ b.start_time) ∧
    evs.Pairwise (fun a b => ChunkedAHIAnalyzer.overlap_fraction b a ≤ 1/2) := by
  constructor
  · exact hpw.imp_of_mem (fun ha _ h => le_trans (le_of_lt (hlt _ ha)) h)
  · refine hpw.imp ?_
    intro a b h
    simp only [ChunkedAHIAnalyzer.overlap_fraction]
    have hov : min b.end_time a.end_time - max b.start_time a.start_time ≤ 0 := by
      have h1 : min b.end_time a.end_time ≤ a.end_time := min_le_right _ _
      have h2 : b.start_time ≤ max b.start_time a.start_time := le_max_left _ _
      linarith
    rw [max_eq_left hov]
    split
    · rw [zero_div]
      norm_num
    · norm_num

/-- The single-pass apnea detector's events are pairwise disjoint in time. -/
theorem detect_apnea_events_disjoint (flow : List ℚ) (fsr : ℚ) (hf : 0 < fsr)
    (gb : Option ℚ) :
    (AHIAnalyzer.detect_apnea_events flow fsr gb).Pairwise
      (fun a b => a.end_time ≤ b.start_time) := by
  unfold AHIAnalyzer.detect_apnea_events
  refine List.Pairwise.map _ ?_ (runLoop_pairwise _ _ 0 false 0 [] List.Pairwise.nil (by simp) (by simp))
  intro a b h
  show ((a.2 : ℚ)) / fsr ≤ ((b.1 : ℚ)) / fsr
  exact (div_le_div_iff_of_pos_right hf).mpr (by exact_mod_cast h)

/-- The single-pass hypopnea detector's events are pairwise disjoint in
time. -/
theorem detect_hypopnea_events_disjoint (flow spo2 : List ℚ) (fsr ssr : ℚ) (hf : 0 < fsr)
    (gb : Option ℚ) :
    (AHIAnalyzer.detect_hypopnea_events flow spo2 fsr ssr gb).Pairwise
      (fun a b => a.end_time ≤ b.start_time) := by
  unfold AHIAnalyzer.detect_hypopnea_events
  refine List.Pairwise.filterMap _ ?_ (runLoop_pairwise _ _ 0 false 0 [] List.Pairwise.nil (by simp) (by simp))
  intro a b h ev hev ev2 hev2
  rcases corroborate_some_fields hev with ⟨_, _, _, hen, _⟩
  rcases corroborate_some_fields hev2 with ⟨_, _, hst2, _, _⟩
  rw [hen, hst2, zero_add, zero_add]
  exact (div_le_div_iff_of_pos_right hf).mpr (by exact_mod_cast h)

/-- Events produced by either single-pass detector have positive extent. -/
theorem detect_event_pos {l : List Event}
    (hinv : ∀ ev ∈ l, EventInv ev) : ∀ ev ∈ l, ev.start_time < ev.end_time :=
  fun ev hev => (hinv ev hev).2.2

/-- Deduplication does not change the single-pass apnea event list. -/
theorem dedup_detect_apnea (flow : List ℚ) (fsr : ℚ) (hf : 0 < fsr) (gb : Option ℚ) :
    ChunkedAHIAnalyzer.remove_duplicate_events (AHIAnalyzer.detect_apnea_events flow fsr gb) =
      AHIAnalyzer.detect_apnea_events flow fsr gb := by
  rcases clean_of_disjoint (detect_apnea_events_disjoint flow fsr hf gb)
    (detect_event_pos (detect_apnea_events_inv flow fsr gb)) with ⟨h1, h2⟩
  exact ChunkedAHIAnalyzer.remove_duplicate_events_of_clean h1 h2

/-- Deduplication does not change the single-pass hypopnea event list. -/
theorem dedup_detect_hypopnea (flow spo2 : List ℚ) (fsr ssr : ℚ) (hf : 0 < fsr)
    (gb : Option ℚ) :
    ChunkedAHIAnalyzer.remove_duplicate_events
        (AHIAnalyzer.detect_hypopnea_events flow spo2 fsr ssr gb) =
      AHIAnalyzer.detect_hypopnea_events flow spo2 fsr ssr gb := by
  rcases clean_of_disjoint (detect_hypopnea_events_disjoint flow spo2 fsr ssr hf gb)
    (detect_event_pos (detect_hypopnea_events_inv flow spo2 fsr ssr gb)) with ⟨h1, h2⟩
  exact ChunkedAHIAnalyzer.remove_duplicate_events_of_clean h1 h2

set_option maxRecDepth 4000 in
/-- Counterexample for C7: a 24 s recording (one chunk) whose SpO2 channel is
36 s long.  The chunked analyzer truncates SpO2 to the flow time span and
misses the desaturation at 27 s, so it reports no hypopnea, while the
single-pass analyzer reports one; events and AHI differ although both use
the same (self-computed) baseline. -/
theorem C7_counterexample :
    ChunkedAHIAnalyzer.analyze eqFlow ceSpo2 (1/2) (1/3) 30 2 ≠
      AHIAnalyzer.analyze eqFlow ceSpo2 (1/2) (1/3) none := by
  with_unfolding_all decide

/-- C7 (amended): for a recording no longer than one chunk whose SpO2
channel is fully covered by the chunk's mapped SpO2 span, the chunked
analysis equals the single-pass analysis (both computing the same global
baseline). -/
theorem C7_single_chunk_equivalence (flow spo2 : List ℚ) (fsr ssr : ℚ) (cmin omin : ℤ)
    (hf : 0 < fsr)
    (hlen : (flow.length : ℤ) ≤ ChunkedAHIAnalyzer.flow_chunk_size cmin fsr)
    (hspo : (spo2.length : ℤ) ≤ pyInt ((((flow.length : ℤ) : ℚ)) / fsr * ssr)) :
    ChunkedAHIAnalyzer.analyze flow spo2 fsr ssr cmin omin =
      AHIAnalyzer.analyze flow spo2 fsr ssr none := by
  simp only [ChunkedAHIAnalyzer.analyze, AHIAnalyzer.analyze]
  rw [ChunkedAHIAnalyzer.num_chunks_one hlen]
  rw [show ((1:ℤ)).toNat = 1 from rfl, show List.range 1 = [0] from rfl]
  simp only [List.flatMap_cons, List.flatMap_nil, List.append_nil]
  rw [ChunkedAHIAnalyzer.get_chunk_data_zero flow spo2 fsr ssr _ _ hlen hspo]
  simp only [Int.cast_zero, zero_div]
  rw [ChunkedAHIAnalyzer.detect_apnea_chunk_zero, ChunkedAHIAnalyzer.detect_hypopnea_chunk_zero]
  rw [dedup_detect_apnea flow fsr hf none, dedup_detect_hypopnea flow spo2 fsr ssr hf none]
  rfl

/-- Witness for C7 (amended): a 24 s recording with 24 s of SpO2 (fully
covered by the single chunk); chunked and single-pass analyses agree. -/
theorem C7_witness :
    ChunkedAHIAnalyzer.analyze eqFlow wSpo2Covered (1/2) (1/3) 30 2 =
      AHIAnalyzer.analyze eqFlow wSpo2Covered (1/2) (1/3) none :=
  C7_single_chunk_equivalence eqFlow wSpo2Covered (1/2) (1/3) 30 2
    (by norm_num) (by with_unfolding_all decide) (by with_unfolding_all decide)
